import Mathlib

/-!
Shallow embedding of the report-generation orchestrator
(`multi_agent.py`, `tools1.py`, `configuration.py`) and proofs about it.

Each Python function that a claim depends on is translated into an
executable Lean definition; stateful graph nodes become explicit
functions on their inputs, and the bounded research loop becomes a
well-founded recursion on the remaining search budget.
-/

namespace MarketResearch

/-- Modelled from the spec: the `Section` record declared in `state.py`
(not part of `src/`), with exactly the fields the source code reads and
writes: `name`, `description`, the `research` flag, and the optional
`content` string (`None` in Python becomes `Option.none`). -/
structure Sec where
  name : String
  description : String
  research : Bool
  content : Option String
deriving DecidableEq, Repr

/-! ## Compiler (`compile_final_report_node`, multi_agent.py lines 321-335) -/

/-- Placeholder emitted by `compile_final_report_node` when a planned
section's name is absent from the completed map:
`f"[Content for section '{planned_section.name}' not found/completed]"`. -/
def missingPlaceholder (name : String) : String :=
  "[Content for section " ++ "'" ++ name ++ "'" ++ " not found/completed]"

/-- Placeholder emitted by `compile_final_report_node` when the completed
map holds `None` for the section:
`f"[Content for section '{planned_section.name}' is None]"`. -/
def nonePlaceholder (name : String) : String :=
  "[Content for section " ++ "'" ++ name ++ "'" ++ " is None]"

/-- Lookup in the Python dict `{s.name: s.content for s in completed}`.
In a dict comprehension a later duplicate key overwrites an earlier one,
so the lookup returns the content of the last section with that name.
`none` means the key is absent; `some none` means present with `None`. -/
def lookupCompleted (completed : List Sec) (n : String) : Option (Option String) :=
  (completed.reverse.find? (fun s => s.name == n)).map Sec.content

/-- One entry of `final_report_parts`:
`f"## {planned_section.name}\n\n{content_str}"` where `content_str`
resolves the three cases of `completed_content_map.get`. -/
def compileBlock (completed : List Sec) (ps : Sec) : String :=
  let contentStr :=
    match lookupCompleted completed ps.name with
    | none => missingPlaceholder ps.name
    | some none => nonePlaceholder ps.name
    | some (some c) => c
  "## " ++ ps.name ++ "\n\n" ++ contentStr

/-- The list `final_report_parts` built by the loop over `planned_sections`. -/
def compileParts (planned completed : List Sec) : List String :=
  planned.map (compileBlock completed)

/-- The node `compile_final_report_node`: joins the parts with blank lines
(`"\n\n".join(final_report_parts)`), returning the `final_report` string. -/
def compile_final_report (planned completed : List Sec) : String :=
  String.intercalate "\n\n" (compileParts planned completed)

/-! ## Section formatting (`format_sections`, tools1.py lines 60-77) -/

/-- Sixty equals signs, the `{'='*60}` separator line of `format_sections`. -/
def eqLine : String := String.mk (List.replicate 60 '=')

/-- Python `str` of a bool, as interpolated by the f-string. -/
def pyBool (b : Bool) : String := if b then "True" else "False"

/-- The f-string block `format_sections` appends for one section, with its
1-based index.  `section.content if section.content else '[Not yet written]'`
treats both `None` and the empty string as falsy. -/
def sectionBlock (idx : Nat) (s : Sec) : String :=
  let contentStr :=
    match s.content with
    | some c => if c = "" then "[Not yet written]" else c
    | none => "[Not yet written]"
  "\n" ++ eqLine ++ "\nSection " ++ toString idx ++ ": " ++ s.name ++ "\n" ++
    eqLine ++ "\nDescription:\n" ++ s.description ++ "\nRequires Research: \n" ++
    pyBool s.research ++ "\n\nContent:\n" ++ contentStr ++ "\n\n"

/-- The function `format_sections`: folds the blocks in input-list order, numbering
from 1 (`enumerate(sections, 1)`). -/
def format_sections (sections : List Sec) : String :=
  (sections.foldl (fun (acc : String × Nat) s =>
    (acc.1 ++ sectionBlock acc.2 s, acc.2 + 1)) ("", 1)).1

/-- The node `gather_completed_sections_node`: formats the completed-sections
collection, in the order it holds them, into `report_sections_from_research`. -/
def gather_completed_sections (completed : List Sec) : String :=
  format_sections completed

/-! ## Section Research Loop (`search_web_node` / `write_section_node`,
multi_agent.py lines 191-279)

`search_web_node` returns `search_iterations + 1`; `write_section_node`
then grades the freshly written content and either ends the sub-graph
(`goto=END`) or loops back to `search_web`.  The grades produced by the
reflection model are an oracle `grades : Nat → String`, where `grades k`
is the grade of the round whose search was the `(k+1)`-th. -/

/-- The termination test of `write_section_node` line 274:
`feedback_result.grade == "pass" or state["search_iterations"] >= configurable.max_search_depth`. -/
def write_section_done (grade : String) (search_iterations max_search_depth : Nat) : Bool :=
  (grade == "pass") || decide (max_search_depth ≤ search_iterations)

/-- One full traversal of the research loop starting from iteration count
`iters`: perform a search round (incrementing the counter as
`search_web_node` does), write and grade, and either stop — returning the
final counter and final grade — or recurse.  Well-founded on the
remaining budget `depth - iters`, which is exactly the code's
termination argument. -/
def runLoop (grades : Nat → String) (depth : Nat) (iters : Nat) : Nat × String :=
  let iters' := iters + 1
  let g := grades iters
  if write_section_done g iters' depth then (iters', g)
  else runLoop grades depth iters'
termination_by depth - iters
decreasing_by
  simp only [write_section_done, Bool.or_eq_true, beq_iff_eq, decide_eq_true_eq,
    not_or] at *
  omega

/-! ## Approval gate and fan-out (`human_feedback_node`,
multi_agent.py lines 125-158) -/

/-- Payload of one `Send("build_section_with_web_research", ...)` task:
`{"topic": topic, "section": s, "search_iterations": 0}`. -/
structure SendTask where
  topic : String
  sec : Sec
  search_iterations : Nat
deriving DecidableEq, Repr

/-- The `Command` values `human_feedback_node` can return: a fan-out of
research tasks, a direct route to `gather_completed_sections`, a
regenerate-plan route, or the `TypeError` raise. -/
inductive HFCommand where
  | dispatch (tasks : List SendTask)
  | gotoGather
  | regenerate (feedback : String)
  | typeError
deriving DecidableEq, Repr

/-- The node `human_feedback_node`: `feedback_input` is the hardcoded constant
`True` (auto-approval), so the node always takes the approve branch,
building one `Send` per planned section whose `research` flag is true,
and routing to `gather_completed_sections` when there are none. -/
def human_feedback_node (topic : String) (sections : List Sec) : HFCommand :=
  let feedback_input := true
  if feedback_input then
    let research_tasks :=
      (sections.filter (fun s => s.research)).map
        (fun s => SendTask.mk topic s 0)
    if research_tasks.isEmpty then HFCommand.gotoGather
    else HFCommand.dispatch research_tasks
  else HFCommand.typeError

/-! ## Search layer (`tavily_search_async` / `tavily_search`,
tools1.py lines 80-241) -/

/-- One Tavily result dict: the fields the formatting code reads
(`title`, `url`, `content`, `raw_content`).  A missing or empty `url`
is Python-falsy and is modelled as the empty string. -/
structure SearchResult where
  title : String
  url : String
  content : String
  raw_content : Option String
deriving DecidableEq, Repr

/-- One per-query response dict as consumed by `tavily_search`:
`query`, `results`, optional `answer`, optional `error`. -/
structure SearchResponse where
  query : String
  results : List SearchResult
  answer : Option String
  error : Option String
deriving DecidableEq, Repr

/-- Python truthiness of an optional string, as used by
`response.get("error")` and `response.get("answer")`. -/
def optTruthy (o : Option String) : Bool :=
  match o with
  | none => false
  | some s => s != ""

/-- The error entry built in the `except` branch of `tavily_search_async`
for one query: `{"query": q, "error": str(e), "results": [], ...}`. -/
def errorEntry (e : String) (q : String) : SearchResponse :=
  { query := q, results := [], answer := none, error := some e }

/-- The exception `asyncio.gather` propagates when at least one task in
the batch raises: some raised exception of the batch (modelled
deterministically as the first in list order). -/
def firstGatherError (outcomes : List (String × Except String SearchResponse)) :
    Option String :=
  outcomes.findSome? (fun o =>
    match o.2 with
    | Except.error e => some e
    | Except.ok _ => none)

/-- The function `tavily_search_async` on a batch whose per-query outcomes are given:
each query's Tavily call either returns a response (`Except.ok`) or
raises (`Except.error`).  The whole batch is awaited by one
`asyncio.gather` inside a single `try`: if any task raised, the `except`
branch returns an error entry for every query of the batch; otherwise it
returns the gathered responses. -/
def tavily_search_async (outcomes : List (String × Except String SearchResponse)) :
    List SearchResponse :=
  match firstGatherError outcomes with
  | some e => outcomes.map (fun o => errorEntry e o.1)
  | none => outcomes.filterMap (fun o => o.2.toOption)

/-- One step of the URL-deduplication loop of `tavily_search`:
`if url and url not in unique_results_by_url: unique_results_by_url[url] = result`. -/
def dedupStep (acc : List (String × SearchResult)) (r : SearchResult) :
    List (String × SearchResult) :=
  if r.url != "" && acc.all (fun p => p.1 != r.url) then acc ++ [(r.url, r)]
  else acc

/-- The insertion-ordered dict `unique_results_by_url`: responses with a
truthy `error` are skipped (`continue`), every other response's results
are folded through `dedupStep`. -/
def uniqueResultsByUrl (responses : List SearchResponse) :
    List (String × SearchResult) :=
  responses.foldl (fun acc resp =>
    if optTruthy resp.error then acc
    else resp.results.foldl dedupStep acc) []

/-- The `--- SOURCE i: title ---` block `tavily_search` emits for one
deduplicated result, including the 10000-character raw-content preview. -/
def sourceBlock (i : Nat) (p : String × SearchResult) : String :=
  let rawPart :=
    match p.2.raw_content with
    | some rc =>
        if optTruthy (some rc) then
          "FULL CONTENT (preview):\n" ++ (rc.take 10000) ++
            (if 10000 < rc.length then "..." else "")
        else ""
    | none => ""
  "\n\n--- SOURCE " ++ toString i ++ ": " ++ p.2.title ++ " ---\n" ++
    "URL: " ++ p.1 ++ "\n\n" ++ "SUMMARY:\n" ++ p.2.content ++ "\n\n" ++
    rawPart ++ "\n\n" ++ String.mk (List.replicate 80 '-') ++ "\n"

/-- The per-response header lines of `tavily_search`: an error line for a
truthy error, otherwise an optional direct-answer line. -/
def responseHeader (resp : SearchResponse) : String :=
  if optTruthy resp.error then
    "Error for query " ++ "'" ++ resp.query ++ "'" ++ ": " ++
      resp.error.getD "" ++ "\n\n"
  else if optTruthy resp.answer then
    "Direct Answer for query " ++ "'" ++ resp.query ++ "'" ++ ": " ++
      resp.answer.getD "" ++ "\n\n"
  else ""

/-- The formatting phase of `tavily_search`, applied to the responses the
async search returned: header lines, the early return when nothing was
found, then one source block per deduplicated URL, and a final `strip()`. -/
def tavily_search_format (responses : List SearchResponse) : String :=
  let headers := String.join (responses.map responseHeader)
  let unique := uniqueResultsByUrl responses
  if unique.isEmpty &&
      !(responses.any (fun r => !optTruthy r.error && optTruthy r.answer)) then
    "No valid search results or answers found. Please try different search queries."
  else
    (("Search results:\n\n" ++ headers) ++
      String.join ((List.range unique.length).map
        (fun i => sourceBlock (i + 1) (unique.getD i ("", ⟨"", "", "", none⟩))))).trim

/-! ## Configuration resolver (`Configuration.from_runnable_config`,
configuration.py lines 59-118) -/

/-- A configuration value: a string (also what an environment variable
yields), an integer, the Tavily search-API enum member, a kwargs dict
placeholder, or Python `None` (a key may be present in `configurable`
with value `None` and is then still used). -/
inductive ConfigValue where
  | str (s : String)
  | int (n : Int)
  | tavily
  | kwargs (entries : List (String × String))
  | pynone
deriving DecidableEq, Repr

/-- The constant `DEFAULT_REPORT_STRUCTURE` from configuration.py. -/
def DEFAULT_REPORT_STRUCTURE : String :=
  "Use this structure to create a report on the user-provided topic:\n\n" ++
  "1. Introduction (no research needed)\n   - Brief overview of the topic area\n\n" ++
  "2. Main Body Sections:\n   - Each section should focus on a sub-topic of the user-provided topic\n   \n" ++
  "3. Conclusion\n   - Aim for 1 structural element (either a list of table) that distills the main body sections \n" ++
  "   - Provide a concise summary of the report"

/-- The fields of the `Configuration` pydantic model with their declared
default values, in declaration order (`cls.model_fields`). -/
def configFields : List (String × ConfigValue) :=
  [("report_structure", ConfigValue.str DEFAULT_REPORT_STRUCTURE),
   ("number_of_queries", ConfigValue.int 2),
   ("max_search_depth", ConfigValue.int 2),
   ("planner_provider", ConfigValue.str "openai"),
   ("planner_model", ConfigValue.str "gpt-4.1"),
   ("planner_model_kwargs", ConfigValue.pynone),
   ("writer_provider", ConfigValue.str "openai"),
   ("writer_model", ConfigValue.str "gpt-4.1"),
   ("writer_model_kwargs", ConfigValue.pynone),
   ("search_api", ConfigValue.tavily),
   ("search_api_config", ConfigValue.pynone),
   ("supervisor_model", ConfigValue.str "openai:gpt-4.1"),
   ("researcher_model", ConfigValue.str "openai:gpt-4.1")]

/-- Resolution of one field by the corrected loop of
`from_runnable_config`: the environment variable named by the uppercased
field name wins; otherwise a key present in the `configurable` mapping
wins (even when its value is `None`); otherwise the pydantic default
applies.  `env` maps environment-variable names to their string values;
`cfg` maps `configurable` keys to values, `none` meaning key absent. -/
def resolveField (env : String → Option String) (cfg : String → Option ConfigValue)
    (fieldName : String) (dflt : ConfigValue) : ConfigValue :=
  match env fieldName.toUpper with
  | some v => ConfigValue.str v
  | none =>
    match cfg fieldName with
    | some v => v
    | none => dflt

/-- The method `from_runnable_config` as the resolved field table: every declared
field paired with its layered-resolution value. -/
def from_runnable_config (env : String → Option String)
    (cfg : String → Option ConfigValue) : List (String × ConfigValue) :=
  configFields.map (fun f => (f.1, resolveField env cfg f.1 f.2))

/-! ## Auxiliary definitions for concrete scenarios and characterizations -/

/-- Concatenation of a list of strings, head first. -/
def concatStrings : List String → String
  | [] => ""
  | s :: rest => s ++ concatStrings rest

/-- The blocks `format_sections` generates, numbered from `k`, in
input-list order. -/
def blocksFrom (k : Nat) : List Sec → List String
  | [] => []
  | s :: rest => sectionBlock k s :: blocksFrom (k + 1) rest

/-- A completed research section named Alpha. -/
def secAlpha : Sec := Sec.mk "Alpha" "da" true (some "ca")

/-- A completed research section named Beta. -/
def secBeta : Sec := Sec.mk "Beta" "db" true (some "cb")

/-- A concrete search batch of two queries: the first raises, the second
succeeds with one result. -/
def exFailBatch : List (String × Except String SearchResponse) :=
  [("qa", Except.error "boom"),
   ("qb", Except.ok (SearchResponse.mk "qb"
      [SearchResult.mk "TitleB" "http://b.example" "summary" none] none none))]

/-- Whether a query outcome raised an exception. -/
def isErrorOutcome (o : String × Except String SearchResponse) : Bool :=
  match o.2 with
  | Except.error _ => true
  | Except.ok _ => false

/-- Whether a query outcome succeeded with a nonempty result list. -/
def okHasResults (o : String × Except String SearchResponse) : Bool :=
  match o.2 with
  | Except.ok r => !r.results.isEmpty
  | Except.error _ => false

/-! ## Theorems -/

/-- C7: the approval gate's default policy always approves — the node
never returns the regenerate or type-error branch — and the fan-out
dispatches exactly one Section Research Loop task per planned section
whose research flag is true (in plan order, each with the shared topic
and a zero iteration counter), dispatching none for flag-false sections;
when zero sections have the flag true it routes directly to the gather
step. -/
theorem human_feedback_auto_approve_fanout (topic : String) (sections : List Sec) :
    (∀ fb, human_feedback_node topic sections ≠ HFCommand.regenerate fb) ∧
    human_feedback_node topic sections ≠ HFCommand.typeError ∧
    (sections.filter (fun s => s.research) = [] →
      human_feedback_node topic sections = HFCommand.gotoGather) ∧
    (sections.filter (fun s => s.research) ≠ [] →
      human_feedback_node topic sections =
        HFCommand.dispatch ((sections.filter (fun s => s.research)).map
          (fun s => SendTask.mk topic s 0))) ∧
    (∀ tasks, human_feedback_node topic sections = HFCommand.dispatch tasks →
      tasks.length = (sections.filter (fun s => s.research)).length ∧
      ∀ t ∈ tasks, t.sec.research = true ∧ t.topic = topic ∧
        t.search_iterations = 0 ∧ t.sec ∈ sections) := by
  unfold human_feedback_node
  simp only [if_true, List.isEmpty_iff, List.map_eq_nil_iff]
  refine ⟨?_, ?_, ?_, ?_, ?_⟩
  · intro fb
    split <;> simp
  · split <;> simp
  · intro h
    simp [h]
  · intro h
    simp [h]
  · intro tasks h
    split at h
    · exact absurd h (by simp)
    · cases h
      refine ⟨by simp, ?_⟩
      intro t ht
      simp only [List.mem_map] at ht
      obtain ⟨s, hs, rfl⟩ := ht
      have hmem := List.mem_of_mem_filter hs
      have hres := List.of_mem_filter hs
      simp_all

/-- Witness for C7 at a concrete plan: one research section and one
non-research section yield exactly one dispatched task. -/
theorem human_feedback_auto_approve_fanout_witness :
    human_feedback_node "t"
        [Sec.mk "A" "d" true none, Sec.mk "B" "d" false none] =
      HFCommand.dispatch [SendTask.mk "t" (Sec.mk "A" "d" true none) 0] :=
  ((human_feedback_auto_approve_fanout "t"
    [Sec.mk "A" "d" true none, Sec.mk "B" "d" false none]).2.2.2.1 (by decide)).trans
    (by decide)

/-- C9: every configuration field resolves by the layered override
order — an environment variable named by the uppercased field name wins,
else a key present in the caller-supplied `configurable` mapping wins,
else the field's declared default applies — and the resolved pair is what
`from_runnable_config` records for that field. -/
theorem config_layered_resolution (env : String → Option String)
    (cfg : String → Option ConfigValue) (fieldName : String) (dflt : ConfigValue)
    (hf : (fieldName, dflt) ∈ configFields) :
    ((fieldName, resolveField env cfg fieldName dflt) ∈ from_runnable_config env cfg) ∧
    (∀ v, env fieldName.toUpper = some v →
      resolveField env cfg fieldName dflt = ConfigValue.str v) ∧
    (env fieldName.toUpper = none → ∀ v, cfg fieldName = some v →
      resolveField env cfg fieldName dflt = v) ∧
    (env fieldName.toUpper = none → cfg fieldName = none →
      resolveField env cfg fieldName dflt = dflt) := by
  refine ⟨?_, ?_, ?_, ?_⟩
  · unfold from_runnable_config
    exact List.mem_map_of_mem (fun f => (f.1, resolveField env cfg f.1 f.2)) hf
  · intro v hv
    simp [resolveField, hv]
  · intro he v hv
    simp [resolveField, he, hv]
  · intro he hc
    simp [resolveField, he, hc]

/-- Witness for C9: with an empty environment and an empty configurable
mapping, `planner_model` resolves to its declared default. -/
theorem config_layered_resolution_witness :
    resolveField (fun _ => none) (fun _ => none) "planner_model"
        (ConfigValue.str "gpt-4.1") = ConfigValue.str "gpt-4.1" :=
  (config_layered_resolution (fun _ => none) (fun _ => none) "planner_model"
    (ConfigValue.str "gpt-4.1") (by simp [configFields])).2.2.2 rfl rfl

/-- Unfolding equation of `runLoop`: one search round, then either stop
or recurse. -/
lemma runLoop_eq (grades : Nat → String) (depth iters : Nat) :
    runLoop grades depth iters =
      if write_section_done (grades iters) (iters + 1) depth then
        (iters + 1, grades iters)
      else runLoop grades depth (iters + 1) := by
  rw [runLoop]

/-- Invariant of the research loop: started below the depth bound, the
final counter strictly exceeds the start, never exceeds the bound, and a
final grade other than `"pass"` forces the counter to hit the bound
exactly. -/
lemma runLoop_bounds (grades : Nat → String) (depth : Nat) :
    ∀ iters, iters < depth →
      iters < (runLoop grades depth iters).1 ∧
      (runLoop grades depth iters).1 ≤ depth ∧
      ((runLoop grades depth iters).2 ≠ "pass" →
        (runLoop grades depth iters).1 = depth) := by
  intro iters hlt
  generalize hfuel : depth - iters = fuel
  induction fuel generalizing iters with
  | zero => omega
  | succ n ih =>
    rw [runLoop_eq]
    by_cases hdone : write_section_done (grades iters) (iters + 1) depth = true
    · simp only [hdone, if_true]
      refine ⟨Nat.lt_succ_self iters, hlt, ?_⟩
      intro hg
      simp only [write_section_done, Bool.or_eq_true, beq_iff_eq,
        decide_eq_true_eq] at hdone
      rcases hdone with h1 | h2
      · exact absurd h1 hg
      · omega
    · simp only [Bool.not_eq_true] at hdone
      simp only [hdone, Bool.false_eq_true, if_false]
      have hlt' : iters + 1 < depth := by
        have : write_section_done (grades iters) (iters + 1) depth = false := hdone
        simp only [write_section_done, Bool.or_eq_false_iff,
          decide_eq_false_iff_not] at this
        omega
      have hrec := ih (iters + 1) hlt' (by omega)
      exact ⟨Nat.lt_trans (Nat.lt_succ_self iters) hrec.1, hrec.2.1, hrec.2.2⟩

/-- C2: for a positive `max_search_depth`, the Section Research Loop
terminates (`runLoop` is a total function by well-founded recursion on
the remaining budget), its final `search_iterations` counter — which
equals both the number of Search rounds and the number of write-and-grade
rounds performed — is at most `max_search_depth`, and a final grade of
`"fail"` forces the counter to equal `max_search_depth` exactly. -/
theorem research_loop_iteration_bound (grades : Nat → String) (depth : Nat)
    (h : 0 < depth) :
    (runLoop grades depth 0).1 ≤ depth ∧
    ((runLoop grades depth 0).2 = "fail" →
      (runLoop grades depth 0).1 = depth) := by
  have hb := runLoop_bounds grades depth 0 h
  exact ⟨hb.2.1, fun hg => hb.2.2 (by simp [hg])⟩

/-- Witness for C2 at depth 2 with an always-failing grader: the loop
stops with counter exactly 2. -/
theorem research_loop_iteration_bound_witness :
    (runLoop (fun _ => "fail") 2 0).1 ≤ 2 ∧
    ((runLoop (fun _ => "fail") 2 0).2 = "fail" →
      (runLoop (fun _ => "fail") 2 0).1 = 2) :=
  research_loop_iteration_bound (fun _ => "fail") 2 (by decide)

/-- C5: whenever the grading step returns `"pass"`, the termination test
of `write_section_node` is true — so the loop transitions to Done at
once, emitting the section, with no further Search or write-and-grade
round — for every iteration count, including the first one below
`max_search_depth`. -/
theorem pass_grade_terminates_loop (grades : Nat → String) (depth iters : Nat)
    (h : grades iters = "pass") :
    write_section_done (grades iters) (iters + 1) depth = true ∧
    runLoop grades depth iters = (iters + 1, "pass") := by
  have hd : write_section_done (grades iters) (iters + 1) depth = true := by
    simp [write_section_done, h]
  refine ⟨hd, ?_⟩
  rw [runLoop_eq, if_pos hd, h]

/-- Witness for C5: a pass on the very first round of a depth-5 loop
stops it with counter 1. -/
theorem pass_grade_terminates_loop_witness :
    runLoop (fun _ => "pass") 5 0 = (1, "pass") :=
  (pass_grade_terminates_loop (fun _ => "pass") 5 0 rfl).2

/-- The completed-content map has no entry for `n` exactly when no
completed section carries that name. -/
lemma lookupCompleted_eq_none (l : List Sec) (n : String) :
    lookupCompleted l n = none ↔ ∀ s ∈ l, s.name ≠ n := by
  simp [lookupCompleted, List.find?_eq_none, List.mem_reverse]

/-- With pairwise-distinct section names, the completed-content map sends
the name of a member section to that section's content. -/
lemma lookupCompleted_of_mem {l : List Sec} {s : Sec}
    (hn : (l.map Sec.name).Nodup) (hm : s ∈ l) :
    lookupCompleted l s.name = some s.content := by
  have hsome : (l.reverse.find? (fun t => t.name == s.name)).isSome := by
    rw [List.find?_isSome]
    exact ⟨s, List.mem_reverse.mpr hm, by simp⟩
  obtain ⟨t, ht⟩ := Option.isSome_iff_exists.mp hsome
  have htp : t.name = s.name := by simpa using List.find?_some ht
  have htm : t ∈ l := List.mem_reverse.mp (List.mem_of_find?_eq_some ht)
  have hts : t = s := List.inj_on_of_nodup_map hn htm hm htp
  simp [lookupCompleted, ht, hts]

/-- With pairwise-distinct section names, the completed-content map is
invariant under permutation of the completed collection. -/
lemma lookupCompleted_perm {l l' : List Sec} (hp : l.Perm l')
    (hn : (l.map Sec.name).Nodup) (n : String) :
    lookupCompleted l n = lookupCompleted l' n := by
  have hn' : (l'.map Sec.name).Nodup := ((hp.map Sec.name).nodup_iff).mp hn
  by_cases h : ∃ s ∈ l, s.name = n
  · obtain ⟨s, hm, hs⟩ := h
    rw [← hs, lookupCompleted_of_mem hn hm,
      lookupCompleted_of_mem hn' (hp.mem_iff.mp hm)]
  · push_neg at h
    rw [(lookupCompleted_eq_none l n).mpr h,
      ((lookupCompleted_eq_none l' n).mpr (fun s hs => h s (hp.mem_iff.mpr hs))).symm]

/-- C3: when the completed collection covers every planned name (with
names pairwise distinct), the Compiler emits exactly one part per
planned section, in planned order the `i`-th part is the `i`-th planned
section's header followed by that section's completed content, and the
output does not depend on the order in which the completed collection
was assembled. -/
theorem compiler_planned_order (planned completed : List Sec)
    (hcov : ∀ s ∈ planned, ∃ c ∈ completed, c.name = s.name)
    (hn : (completed.map Sec.name).Nodup) :
    (compileParts planned completed).length = planned.length ∧
    (∀ i (hi : i < planned.length),
      ∃ c ∈ completed, c.name = (planned.get ⟨i, hi⟩).name ∧
        (compileParts planned completed).getD i "" =
          "## " ++ (planned.get ⟨i, hi⟩).name ++ "\n\n" ++
            (match c.content with
             | some str => str
             | none => nonePlaceholder (planned.get ⟨i, hi⟩).name)) ∧
    (∀ completed', completed.Perm completed' →
      compileParts planned completed = compileParts planned completed') := by
  refine ⟨by simp [compileParts], ?_, ?_⟩
  · intro i hi
    set s := planned.get ⟨i, hi⟩ with hs
    obtain ⟨c, hcm, hcn⟩ := hcov s (planned.get_mem i hi)
    refine ⟨c, hcm, hcn, ?_⟩
    have hget : (compileParts planned completed).getD i "" =
        compileBlock completed s := by
      rw [List.getD_eq_getElem _ _ (by simpa [compileParts] using hi)]
      simp [compileParts, hs]
    rw [hget]
    have hlook : lookupCompleted completed s.name = some c.content := by
      rw [← hcn]
      exact lookupCompleted_of_mem hn hcm
    cases hc : c.content <;> simp [compileBlock, hlook, hc]
  · intro completed' hp
    unfold compileParts
    refine List.map_congr_left (fun ps _ => ?_)
    unfold compileBlock
    rw [lookupCompleted_perm hp hn ps.name]

/-- Witness for C3: a two-section plan completed in reversed order still
compiles to the planned order with each section's content. -/
theorem compiler_planned_order_witness :
    (compileParts [Sec.mk "A" "d" true (some "ca"), Sec.mk "B" "d" true (some "cb")]
        [Sec.mk "B" "d" true (some "cb"), Sec.mk "A" "d" true (some "ca")]).length = 2 ∧
    compileParts [Sec.mk "A" "d" true (some "ca"), Sec.mk "B" "d" true (some "cb")]
        [Sec.mk "B" "d" true (some "cb"), Sec.mk "A" "d" true (some "ca")] =
      ["## A\n\nca", "## B\n\ncb"] := by
  have h := compiler_planned_order
    [Sec.mk "A" "d" true (some "ca"), Sec.mk "B" "d" true (some "cb")]
    [Sec.mk "B" "d" true (some "cb"), Sec.mk "A" "d" true (some "ca")]
    (by decide) (by decide)
  exact ⟨h.1, by decide⟩

/-- C6: a planned section whose name is absent from the completed
collection compiles to its header followed by the fixed
missing-placeholder naming it, the compile operation is a total function
(no exception), and the parts of the other planned sections are exactly
what they would be on their own — the missing entry leaves them
untouched. -/
theorem compiler_missing_section (completed : List Sec) (s : Sec)
    (habs : s.name ∉ completed.map Sec.name) :
    compileBlock completed s =
      "## " ++ s.name ++ "\n\n" ++ missingPlaceholder s.name ∧
    (∀ planned₁ planned₂ : List Sec,
      compileParts (planned₁ ++ s :: planned₂) completed =
        compileParts planned₁ completed ++
          compileBlock completed s :: compileParts planned₂ completed) := by
  have hnone : lookupCompleted completed s.name = none := by
    rw [lookupCompleted_eq_none]
    intro c hc he
    exact habs (he ▸ List.mem_map_of_mem Sec.name hc)
  refine ⟨by simp [compileBlock, hnone], ?_⟩
  intro planned₁ planned₂
  simp [compileParts]

/-- Witness for C6: compiling a plan whose middle section has no
completed counterpart emits the fixed placeholder for it and leaves the
others as is. -/
theorem compiler_missing_section_witness :
    compileBlock [Sec.mk "A" "d" true (some "ca")] (Sec.mk "M" "d" true none) =
      "## M\n\n" ++ missingPlaceholder "M" ∧
    compileParts [Sec.mk "A" "d" true (some "ca"), Sec.mk "M" "d" true none]
        [Sec.mk "A" "d" true (some "ca")] =
      ["## A\n\nca",
       compileBlock [Sec.mk "A" "d" true (some "ca")] (Sec.mk "M" "d" true none)] := by
  have h := compiler_missing_section [Sec.mk "A" "d" true (some "ca")]
    (Sec.mk "M" "d" true none) (by decide)
  exact ⟨h.1, by decide⟩

/-- C10: a planned section whose name maps to Python `None` in the
completed collection compiles to its header followed by the fixed
None-content placeholder naming it — the bare value `None` is never
embedded, no exception is raised, and that placeholder differs from the
missing-section placeholder. -/
theorem compiler_none_content (completed : List Sec) (s : Sec)
    (h : lookupCompleted completed s.name = some none) :
    compileBlock completed s =
      "## " ++ s.name ++ "\n\n" ++ nonePlaceholder s.name ∧
    nonePlaceholder s.name ≠ missingPlaceholder s.name := by
  refine ⟨by simp [compileBlock, h], ?_⟩
  intro heq
  have hd := congrArg String.data heq
  simp only [nonePlaceholder, missingPlaceholder, String.data_append] at hd
  exact absurd (List.append_cancel_left hd) (by decide)

/-- Witness for C10: a completed entry named `A` with `None` content
compiles to the None placeholder, distinct from the missing placeholder. -/
theorem compiler_none_content_witness :
    compileBlock [Sec.mk "A" "d" true none] (Sec.mk "A" "p" true (some "x")) =
      "## A\n\n" ++ nonePlaceholder "A" ∧
    nonePlaceholder "A" ≠ missingPlaceholder "A" :=
  compiler_none_content [Sec.mk "A" "d" true none] (Sec.mk "A" "p" true (some "x"))
    (by decide)

/-- Folding one result list through `dedupStep` keeps the URL keys
pairwise distinct. -/
lemma dedupStep_fold_nodup (rs : List SearchResult)
    (acc : List (String × SearchResult))
    (h : (acc.map Prod.fst).Nodup) :
    ((rs.foldl dedupStep acc).map Prod.fst).Nodup := by
  induction rs generalizing acc with
  | nil => exact h
  | cons r rs ih =>
    refine ih (dedupStep acc r) ?_
    unfold dedupStep
    split
    · next hcond =>
      simp only [Bool.and_eq_true, List.all_eq_true, bne_iff_ne] at hcond
      simp only [List.map_append, List.map_cons, List.map_nil,
        List.nodup_append, List.nodup_cons, List.nodup_nil]
      refine ⟨h, by simp, ?_⟩
      intro u hu hu'
      simp only [List.mem_cons, List.not_mem_nil, or_false] at hu'
      subst hu'
      obtain ⟨p, hp, hpe⟩ := List.mem_map.mp hu
      exact hcond.2 p hp hpe
    · exact h

/-- Membership in the URL keys after folding one result list: a key was
already present, or it is a nonempty URL of one of the results. -/
lemma dedupStep_fold_mem (rs : List SearchResult)
    (acc : List (String × SearchResult)) (u : String) :
    u ∈ (rs.foldl dedupStep acc).map Prod.fst ↔
      u ∈ acc.map Prod.fst ∨ (u ≠ "" ∧ ∃ r ∈ rs, r.url = u) := by
  induction rs generalizing acc with
  | nil => simp
  | cons r rs ih =>
    rw [List.foldl_cons, ih]
    have hstep : u ∈ (dedupStep acc r).map Prod.fst ↔
        u ∈ acc.map Prod.fst ∨ (u ≠ "" ∧ r.url = u) := by
      unfold dedupStep
      split
      · next hcond =>
        simp only [Bool.and_eq_true, List.all_eq_true, bne_iff_ne] at hcond
        simp only [List.map_append, List.map_cons, List.map_nil,
          List.mem_append, List.mem_cons, List.not_mem_nil, or_false]
        constructor
        · rintro (h | h)
          · exact Or.inl h
          · exact Or.inr ⟨h ▸ hcond.1, h.symm⟩
        · rintro (h | ⟨_, h⟩)
          · exact Or.inl h
          · exact Or.inr h.symm
      · next hcond =>
        simp only [Bool.and_eq_true, List.all_eq_true, bne_iff_ne, not_and,
          not_forall] at hcond
        constructor
        · exact Or.inl
        · rintro (h | ⟨hne, hr⟩)
          · exact h
          · subst hr
            obtain ⟨p, hp, hpeq⟩ := hcond (by simpa using hne)
            have : p.1 = r.url := by
              by_contra hc
              exact hc (by simpa using hpeq)
            exact this ▸ List.mem_map_of_mem Prod.fst hp
    rw [hstep]
    simp only [List.mem_cons]
    constructor
    · rintro ((h | h) | h)
      · exact Or.inl h
      · exact Or.inr ⟨h.1, r, Or.inl rfl, h.2⟩
      · exact Or.inr ⟨h.1, by obtain ⟨x, hx, hxx⟩ := h.2; exact ⟨x, Or.inr hx, hxx⟩⟩
    · rintro (h | ⟨hne, x, hx | hx, hxx⟩)
      · exact Or.inl (Or.inl h)
      · exact Or.inl (Or.inr ⟨hne, hx ▸ hxx⟩)
      · exact Or.inr ⟨hne, x, hx, hxx⟩

/-- C8: in the search context built by `tavily_search`, the deduplicated
source table — from which the `--- SOURCE i ---` blocks of the formatted
string are generated one per entry — holds each distinct URL exactly
once: its keys are pairwise distinct, and a URL is a key exactly when it
is a nonempty URL of some result of some non-error response of the
batch. -/
theorem search_context_dedups_urls (responses : List SearchResponse) :
    ((uniqueResultsByUrl responses).map Prod.fst).Nodup ∧
    (∀ u, u ∈ (uniqueResultsByUrl responses).map Prod.fst ↔
      (u ≠ "" ∧ ∃ resp ∈ responses, optTruthy resp.error = false ∧
        ∃ r ∈ resp.results, r.url = u)) := by
  have haux : ∀ (rest : List SearchResponse) (acc : List (String × SearchResult)),
      (acc.map Prod.fst).Nodup →
      ((rest.foldl (fun acc resp =>
          if optTruthy resp.error then acc
          else resp.results.foldl dedupStep acc) acc).map Prod.fst).Nodup ∧
      (∀ u, u ∈ (rest.foldl (fun acc resp =>
          if optTruthy resp.error then acc
          else resp.results.foldl dedupStep acc) acc).map Prod.fst ↔
        u ∈ acc.map Prod.fst ∨
          (u ≠ "" ∧ ∃ resp ∈ rest, optTruthy resp.error = false ∧
            ∃ r ∈ resp.results, r.url = u)) := by
    intro rest
    induction rest with
    | nil => intro acc h; simpa using h
    | cons resp rest ih =>
      intro acc h
      by_cases herr : optTruthy resp.error
      · have := ih acc h
        rw [List.foldl_cons, if_pos herr]
        refine ⟨this.1, ?_⟩
        intro u
        rw [this.2 u]
        constructor
        · rintro (h | ⟨hne, x, hx, hxx⟩)
          · exact Or.inl h
          · exact Or.inr ⟨hne, x, List.mem_cons_of_mem _ hx, hxx⟩
        · rintro (h | ⟨hne, x, hx, hxx⟩)
          · exact Or.inl h
          · rcases List.mem_cons.mp hx with rfl | hx'
            · exact absurd hxx.1 (by simp [herr])
            · exact Or.inr ⟨hne, x, hx', hxx⟩
      · have hacc' := dedupStep_fold_nodup resp.results acc h
        have := ih (resp.results.foldl dedupStep acc) hacc'
        rw [List.foldl_cons, if_neg herr]
        refine ⟨this.1, ?_⟩
        intro u
        rw [this.2 u, dedupStep_fold_mem]
        constructor
        · rintro ((h | ⟨hne, r, hr, hru⟩) | ⟨hne, x, hx, hxx⟩)
          · exact Or.inl h
          · exact Or.inr ⟨hne, resp, List.mem_cons_self resp rest,
              by simpa using herr, r, hr, hru⟩
          · exact Or.inr ⟨hne, x, List.mem_cons_of_mem _ hx, hxx⟩
        · rintro (h | ⟨hne, x, hx, hxe, r, hr, hru⟩)
          · exact Or.inl (Or.inl h)
          · rcases List.mem_cons.mp hx with rfl | hx'
            · exact Or.inl (Or.inr ⟨hne, r, hr, hru⟩)
            · exact Or.inr ⟨hne, x, hx', hxe, r, hr, hru⟩
  have := haux responses [] (by simp)
  unfold uniqueResultsByUrl
  refine ⟨this.1, fun u => ?_⟩
  rw [this.2 u]
  simp

/-- Counterexample to C1: in a batch with one raising query and one
succeeding query with a nonempty result list, `tavily_search_async`
returns error entries for every query — the successful query's results
are dropped from the returned sequence. -/
theorem batch_error_drops_success_cex :
    exFailBatch.any isErrorOutcome = true ∧
    exFailBatch.any okHasResults = true ∧
    (∀ resp ∈ tavily_search_async exFailBatch,
      resp.results = [] ∧ resp.error = some "boom") := by
  decide

/-- C1 amended: the batch is awaited by a single `asyncio.gather` inside
one `try`, so no exception unwinds the batch and the function is total;
when no query raises, all responses are returned; but when any query
raises, every query of the batch — including the successful ones — is
replaced by a structured error entry carrying the raised error and an
empty result list. -/
theorem batch_error_replaces_all
    (outcomes : List (String × Except String SearchResponse)) :
    (firstGatherError outcomes = none ↔
      ∀ o ∈ outcomes, ∀ e, o.2 ≠ Except.error e) ∧
    (∀ e, firstGatherError outcomes = some e →
      tavily_search_async outcomes = outcomes.map (fun o => errorEntry e o.1) ∧
      (tavily_search_async outcomes).length = outcomes.length ∧
      ∀ resp ∈ tavily_search_async outcomes,
        resp.results = [] ∧ resp.error = some e) ∧
    (firstGatherError outcomes = none →
      tavily_search_async outcomes =
        outcomes.filterMap (fun o => o.2.toOption)) := by
  refine ⟨?_, ?_, ?_⟩
  · unfold firstGatherError
    rw [List.findSome?_eq_none_iff]
    constructor
    · intro h o ho e he
      have := h o ho
      rw [he] at this
      exact Option.noConfusion this
    · intro h o ho
      cases he : o.2 with
      | error e => exact absurd he (h o ho e)
      | ok r => rfl
  · intro e he
    unfold tavily_search_async
    rw [he]
    refine ⟨rfl, by simp, ?_⟩
    intro resp hresp
    obtain ⟨o, _, rfl⟩ := List.mem_map.mp hresp
    exact ⟨rfl, rfl⟩
  · intro he
    unfold tavily_search_async
    rw [he]

/-- Witness for the amended C1 at the concrete failing batch. -/
theorem batch_error_replaces_all_witness :
    tavily_search_async exFailBatch =
      exFailBatch.map (fun o => errorEntry "boom" o.1) :=
  ((batch_error_replaces_all exFailBatch).2.1 "boom" rfl).1

/-- Counterexample to C4: the two orders of collecting the same two
completed sections are permutations of each other, yet the research
context text `gather_completed_sections` builds from them differs — the
text follows collection order, not the planned-section order. -/
theorem gather_order_dependent_cex :
    List.Perm [secAlpha, secBeta] [secBeta, secAlpha] ∧
    gather_completed_sections [secAlpha, secBeta] ≠
      gather_completed_sections [secBeta, secAlpha] := by
  constructor
  · exact List.Perm.swap secBeta secAlpha []
  · decide

/-- The accumulator-passing fold of `format_sections`, characterized:
starting from accumulated text `acc` and counter `k`, it appends the
blocks of the remaining sections numbered from `k`, in input order. -/
lemma format_sections_go (sections : List Sec) (acc : String) (k : Nat) :
    (sections.foldl (fun (p : String × Nat) s =>
      (p.1 ++ sectionBlock p.2 s, p.2 + 1)) (acc, k)).1 =
      acc ++ concatStrings (blocksFrom k sections) := by
  induction sections generalizing acc k with
  | nil => simp [concatStrings, blocksFrom]
  | cons s rest ih =>
    rw [List.foldl_cons, ih]
    simp [concatStrings, blocksFrom, String.append_assoc]

/-- Length of the generated block list equals the input length: every
collected section is formatted, none skipped. -/
lemma blocksFrom_length (k : Nat) (l : List Sec) :
    (blocksFrom k l).length = l.length := by
  induction l generalizing k with
  | nil => rfl
  | cons s rest ih => simp [blocksFrom, ih]

/-- C4 amended: the research context text built after the Phase-1 join is
the concatenation of one block per completed section, numbered from 1,
in the order the completed-sections collection holds them — the code
applies no reordering by planned position and no filtering. -/
theorem gather_formats_in_collection_order (completed : List Sec) :
    gather_completed_sections completed =
      concatStrings (blocksFrom 1 completed) ∧
    (blocksFrom 1 completed).length = completed.length := by
  refine ⟨?_, blocksFrom_length 1 completed⟩
  unfold gather_completed_sections format_sections
  rw [format_sections_go completed "" 1, String.empty_append]

end MarketResearch
